import Mathlib

/-!
Shallow embedding of the categorization/persistence logic of a small
finance dashboard (`main.py`): the persisted category store, the
transaction classifier, and CSV normalization (amount and date parsing).
The web UI, charting and table widgets are outside the model; only the
data operations the specification describes are embedded.
-/

/-- A category store: insertion-ordered mapping from category name to an
ordered list of keyword strings.  Python dicts preserve insertion order,
so the store is modelled as an association list. -/
abbrev CategoryStore := List (String × List String)

/-- The default store installed in session state (`main.py` lines 14-17). -/
def initialCategories : CategoryStore := [("Uncategorized", [])]

/-- Modelled from the spec: the persisted store is "a single structured file
mapping category name (string) → array of keyword strings"; `json.dump` and
`json.load` are library code outside the repository, so JSON data is
modelled structurally as JSON values rather than as raw text. -/
inductive JVal where
  | null : JVal
  | bool (b : Bool) : JVal
  | num (q : ℚ) : JVal
  | str (s : String) : JVal
  | arr (elems : List JVal) : JVal
  | obj (entries : List (String × JVal)) : JVal

/-- The JSON value `json.dump` writes for a category store
(`main.py` lines 25-27): an object whose entries are arrays of strings,
in store order. -/
def storeToJson (s : CategoryStore) : JVal :=
  JVal.obj (s.map (fun e => (e.1, JVal.arr (e.2.map JVal.str))))

/-- All-or-nothing traversal: apply `f` to every element, failing if any
application fails. -/
def optionMapM {α β : Type} (f : α → Option β) : List α → Option (List β)
  | [] => some []
  | x :: xs =>
      match f x with
      | none => none
      | some b =>
          match optionMapM f xs with
          | none => none
          | some bs => some (b :: bs)

/-- Read a keyword array back from a JSON value. -/
def jsonToKeywords : JVal → Option (List String)
  | JVal.arr es =>
      optionMapM (fun v => match v with | JVal.str s => some s | _ => none) es
  | _ => none

/-- Read a category store back from a JSON value. -/
def jsonToStore : JVal → Option CategoryStore
  | JVal.obj entries =>
      optionMapM (fun e => (jsonToKeywords e.2).map (fun kws => (e.1, kws))) entries
  | _ => none

/-- State of the persisted `categories.json` file: absent, present with
well-formed JSON content, or present but unparsable (in which case
`json.load` raises an exception). -/
inductive FileState where
  | absent : FileState
  | content (v : JVal) : FileState
  | corrupt : FileState

/-- Function `save_categories` (`main.py` lines 25-27): serialize the current store
to the persisted file. -/
def save_categories (s : CategoryStore) : FileState :=
  FileState.content (storeToJson s)

/-- The module-level load (`main.py` lines 14-22): session state starts as
`initialCategories`; if the file exists, its parsed JSON replaces the
session value wholesale; a parse error propagates, because the call to
`json.load` is not guarded by any exception handler. -/
def load_categories : FileState → Except Unit JVal
  | FileState.absent => Except.ok (storeToJson initialCategories)
  | FileState.content v => Except.ok v
  | FileState.corrupt => Except.error ()

/-- Python dictionary lookup `d[c]` (also `c in d`): the first entry whose
key equals `c`. -/
def lookupCat : CategoryStore → String → Option (List String)
  | [], _ => none
  | e :: rest, c => if e.1 = c then some e.2 else lookupCat rest c

/-- Replace the keyword list of category `c` (Python `d[c].append(...)`
mutates the list stored under the key in place). -/
def setCat : CategoryStore → String → List String → CategoryStore
  | [], _, _ => []
  | e :: rest, c, kws => if e.1 = c then (c, kws) :: rest else e :: setCat rest c kws

/-- Python `str.lower` (ASCII case mapping suffices for the modelled data). -/
def lowerStr (s : String) : String := String.mk (s.data.map Char.toLower)

/-- Drop leading and trailing whitespace from a character list. -/
def trimChars (cs : List Char) : List Char :=
  ((cs.dropWhile Char.isWhitespace).reverse.dropWhile Char.isWhitespace).reverse

/-- Python `str.strip`: remove leading and trailing whitespace. -/
def trimStr (s : String) : String := String.mk (trimChars s.data)

/-- The session state relevant to the category store: the in-memory
mapping together with the persisted file. -/
structure AppState where
  categories : CategoryStore
  file : FileState

/-- Function `add_keyword_to_category` (`main.py` lines 62-68): trim the keyword;
if it is non-empty and not already in the list of `category`, append it,
persist, and report `true`; otherwise report `false`.  The result is
`none` exactly when Python would raise a `KeyError`, which happens when
the trimmed keyword is non-empty (short-circuit of `and`) and `category`
is not a key of the store. -/
def add_keyword_to_category (st : AppState) (category keyword : String) :
    Option (AppState × Bool) :=
  let kw := trimStr keyword
  if kw = "" then some (st, false)
  else
    match lookupCat st.categories category with
    | none => none
    | some kws =>
        if kw ∈ kws then some (st, false)
        else
          let cats := setCat st.categories category (kws ++ [kw])
          some ({ categories := cats, file := save_categories cats }, true)

/-- The add-category handler (`main.py` lines 96-100): a non-empty name
that is not already a key is appended with an empty keyword list and the
store is persisted; otherwise nothing happens. -/
def add_category (st : AppState) (name : String) : AppState :=
  if name ≠ "" ∧ lookupCat st.categories name = none then
    { categories := st.categories ++ [(name, [])],
      file := save_categories (st.categories ++ [(name, [])]) }
  else st

/-- Python `.lower().strip()` applied to the `Details` cell of a row
(`main.py` line 41). -/
def normalizeDetails (s : String) : String := trimStr (lowerStr s)

/-- The membership test of the classifier (`main.py` lines 38-42): the
normalized details must exactly equal one of the lower-cased keywords. -/
def keywordHit (keywords : List String) (details : String) : Bool :=
  (keywords.map lowerStr).contains (normalizeDetails details)

/-- A calendar date as parsed from the `Date` column (month is 1-12). -/
structure Date where
  day : Nat
  month : Nat
  year : Nat
deriving DecidableEq

/-- A parsed transaction row.  The amount is modelled as a rational (the
ideal decimal the spec describes). -/
structure Transaction where
  date : Option Date
  details : String
  amount : ℚ
  direction : String
  category : String
deriving DecidableEq

/-- The relevant cells of one raw CSV data row, as text. -/
structure RawRow where
  dateText : String
  detailsText : String
  amountText : String
  directionText : String
deriving DecidableEq

/-- The body of the classifier loop (`main.py` lines 33-43) for a single
store entry: skip `Uncategorized` and entries with an empty keyword list,
otherwise relabel every matching row with this entry name. -/
def categorizePass (rows : List Transaction) (e : String × List String) :
    List Transaction :=
  if e.1 = "Uncategorized" ∨ e.2 = [] then rows
  else rows.map (fun r =>
    if keywordHit e.2 r.details then { r with category := e.1 } else r)

/-- Function `categorize_transaction` (`main.py` lines 30-46): reset every row to
`"Uncategorized"`, then run one pass per store entry, in store order. -/
def categorize_transaction (cats : CategoryStore) (rows : List Transaction) :
    List Transaction :=
  cats.foldl categorizePass (rows.map (fun r => { r with category := "Uncategorized" }))

/-- The per-row effect of one store entry on the category cell. -/
def assignStep (d : String) (acc : String) (e : String × List String) : String :=
  if e.1 = "Uncategorized" ∨ e.2 = [] then acc
  else if keywordHit e.2 d then e.1 else acc

/-- The category the classifier leaves on a row with details `d`. -/
def assignedCategory (cats : CategoryStore) (d : String) : String :=
  cats.foldl (assignStep d) "Uncategorized"

/-- The store entries eligible to catch details `d`: not `Uncategorized`,
non-empty keyword list, and an exact match of the normalized details
against a lower-cased keyword. -/
def eligibleMatches (cats : CategoryStore) (d : String) : CategoryStore :=
  cats.filter (fun e =>
    if e.1 = "Uncategorized" ∨ e.2 = [] then false else keywordHit e.2 d)

/-- Python `str.replace(",", "")` (`main.py` line 53): drop every comma. -/
def stripCommas (s : String) : String :=
  String.mk (s.data.filter (fun c => c ≠ ','))

/-- Value of a digit list, most significant digit first. -/
def digitsVal (cs : List Char) : Nat :=
  cs.foldl (fun n c => 10 * n + (c.toNat - 48)) 0

/-- Modelled from the spec: `Amount` cells are "parse[d] as a signed decimal
number" by the Python builtin `float` (library code outside the repository):
optional surrounding whitespace, an optional sign, and digits with an
optional fractional part; at least one digit is required. -/
def parseDecimal (s : String) : Option ℚ :=
  let t := trimChars s.data
  let signed : Bool × List Char :=
    match t with
    | '-' :: cs => (true, cs)
    | '+' :: cs => (false, cs)
    | cs => (false, cs)
  let ip := signed.2.takeWhile Char.isDigit
  let rest := signed.2.dropWhile Char.isDigit
  let fp : Option (List Char) :=
    match rest with
    | [] => some []
    | '.' :: fs => if fs.all Char.isDigit then some fs else none
    | _ => none
  match fp with
  | none => none
  | some fs =>
      if ip = [] ∧ fs = [] then none
      else
        let mag : ℚ := (digitsVal ip : ℚ) + (digitsVal fs : ℚ) / (10 : ℚ) ^ fs.length
        some (if signed.1 then -mag else mag)

/-- The twelve abbreviated month names matched by the `%b` directive. -/
def monthAbbrevs : List String :=
  ["Jan", "Feb", "Mar", "Apr", "May", "Jun", "Jul", "Aug", "Sep", "Oct", "Nov", "Dec"]

/-- Gregorian leap-year rule. -/
def isLeapYear (y : Nat) : Bool :=
  (y % 4 == 0 && y % 100 != 0) || y % 400 == 0

/-- Number of days of month `m` (1-12) in year `y`. -/
def daysInMonth (m y : Nat) : Nat :=
  if m = 2 then (if isLeapYear y then 29 else 28)
  else if m = 4 ∨ m = 6 ∨ m = 9 ∨ m = 11 then 30
  else 31

/-- The `%d` directive: one or two digits with value 1-31 (a two-digit
run must itself be a valid day, there is no backtracking into one digit
followed by a digit). -/
def readDay : List Char → Option (Nat × List Char)
  | c1 :: c2 :: rest =>
      if c1.isDigit ∧ c2.isDigit then
        if 1 ≤ digitsVal [c1, c2] ∧ digitsVal [c1, c2] ≤ 31 then
          some (digitsVal [c1, c2], rest)
        else none
      else if c1.isDigit ∧ 1 ≤ digitsVal [c1] then some (digitsVal [c1], c2 :: rest)
      else none
  | [c1] => if c1.isDigit ∧ 1 ≤ digitsVal [c1] then some (digitsVal [c1], []) else none
  | [] => none

/-- A literal space in a `strptime`-style format: one or more whitespace
characters. -/
def skipWS1 : List Char → Option (List Char)
  | c :: rest =>
      if c.isWhitespace then some (rest.dropWhile Char.isWhitespace) else none
  | [] => none

/-- The `%b` directive: a three-letter month abbreviation, matched
case-insensitively; yields the month number 1-12. -/
def readMonth (cs : List Char) : Option (Nat × List Char) :=
  match cs with
  | c1 :: c2 :: c3 :: rest =>
      match (monthAbbrevs.map lowerStr).indexOf? (lowerStr (String.mk [c1, c2, c3])) with
      | some i => some (i + 1, rest)
      | none => none
  | _ => none

/-- The `%Y` directive: exactly four digits. -/
def readYear : List Char → Option (Nat × List Char)
  | c1 :: c2 :: c3 :: c4 :: rest =>
      if c1.isDigit ∧ c2.isDigit ∧ c3.isDigit ∧ c4.isDigit then
        some (digitsVal [c1, c2, c3, c4], rest)
      else none
  | _ => none

/-- Modelled from the spec: the `Date` column is "parsed from a fixed
textual format (day, abbreviated month name, 4-digit year, e.g.
05 Jan 2024)"; the pandas call with format `%d %b %Y` and coercing error
mode is library code outside the repository.  The whole cell must match
the format and denote a real calendar day; otherwise the cell parses to
`none` (the NaT sentinel). -/
def parseDate (s : String) : Option Date :=
  match readDay s.data with
  | none => none
  | some (d, r1) =>
      match skipWS1 r1 with
      | none => none
      | some r2 =>
          match readMonth r2 with
          | none => none
          | some (m, r3) =>
              match skipWS1 r3 with
              | none => none
              | some r4 =>
                  match readYear r4 with
                  | none => none
                  | some (y, r5) =>
                      if r5 = [] ∧ 1 ≤ y ∧ d ≤ daysInMonth m y then
                        some { day := d, month := m, year := y }
                      else none

/-- Function `load_transactions` (`main.py` lines 49-59): every `Amount` cell must
parse once commas are removed, otherwise the one `try` block catches the
error and the whole upload yields `none` (a single reported error, no
partial result); `Date` cells are parsed per row with failures coerced to
`none`; finally the rows are classified against the store. -/
def load_transactions (cats : CategoryStore) (rows : List RawRow) :
    Option (List Transaction) :=
  (optionMapM (fun r =>
    (parseDecimal (stripCommas r.amountText)).map (fun a =>
      { date := parseDate r.dateText
        details := r.detailsText
        amount := a
        direction := r.directionText
        category := "" })) rows).map
    (fun ts => categorize_transaction cats ts)

/-- A two-digit zero-padded number (the DD of the spec format). -/
def two0 (n : Nat) : String :=
  String.mk [Char.ofNat (48 + n / 10 % 10), Char.ofNat (48 + n % 10)]

/-- A four-digit zero-padded number (the YYYY of the spec format). -/
def pad4 (n : Nat) : String :=
  String.mk [Char.ofNat (48 + n / 1000 % 10), Char.ofNat (48 + n / 100 % 10),
             Char.ofNat (48 + n / 10 % 10), Char.ofNat (48 + n % 10)]

/-- A `Date` cell written in the fixed `DD Mon YYYY` format of the spec
(`mIdx` is the zero-based month index). -/
def formatDate (d mIdx y : Nat) : String :=
  two0 d ++ " " ++ monthAbbrevs.getD mIdx "" ++ " " ++ pad4 y

/-! ### Classifier structure lemmas -/

theorem map_category_self (rows : List Transaction) :
    rows.map (fun r => { r with category := r.category }) = rows := by
  induction rows with
  | nil => rfl
  | cons r rs ih => simp only [List.map_cons, ih]

theorem foldl_categorizePass (cats : CategoryStore) :
    ∀ rows : List Transaction,
      cats.foldl categorizePass rows =
        rows.map (fun r =>
          { r with category := cats.foldl (assignStep r.details) r.category }) := by
  induction cats with
  | nil =>
      intro rows
      simp only [List.foldl_nil]
      exact (map_category_self rows).symm
  | cons e cs ih =>
      intro rows
      simp only [List.foldl_cons]
      rw [ih (categorizePass rows e)]
      unfold categorizePass
      by_cases h : e.1 = "Uncategorized" ∨ e.2 = []
      · rw [if_pos h]
        apply List.map_congr_left
        intro r _
        simp [assignStep, h]
      · rw [if_neg h, List.map_map]
        apply List.map_congr_left
        intro r _
        by_cases hk : keywordHit e.2 r.details
        · simp [assignStep, h, hk]
        · simp [assignStep, h, hk]

theorem assignedCategory_foldl (d : String) (cats : CategoryStore) :
    ∀ acc : String,
      cats.foldl (assignStep d) acc =
        (((eligibleMatches cats d).getLast?).map Prod.fst).getD acc := by
  induction cats with
  | nil => intro acc; simp [eligibleMatches]
  | cons e cs ih =>
      intro acc
      simp only [List.foldl_cons]
      unfold eligibleMatches
      rw [List.filter_cons]
      by_cases h : e.1 = "Uncategorized" ∨ e.2 = []
      · have hp : (if e.1 = "Uncategorized" ∨ e.2 = [] then false
            else keywordHit e.2 d) = false := by simp [h]
        rw [hp]
        have ha : assignStep d acc e = acc := by simp [assignStep, h]
        rw [ha]
        simp only [Bool.false_eq_true, if_neg, ite_false]
        exact ih acc
      · by_cases hk : keywordHit e.2 d
        · have hp : (if e.1 = "Uncategorized" ∨ e.2 = [] then false
              else keywordHit e.2 d) = true := by simp [h, hk]
          rw [hp]
          have ha : assignStep d acc e = e.1 := by simp [assignStep, h, hk]
          rw [ha, if_pos rfl]
          rcases hfil : eligibleMatches cs d with _ | ⟨x, xs⟩
          · unfold eligibleMatches at hfil
            rw [hfil, List.getLast?_singleton]
            rw [ih e.1]
            unfold eligibleMatches
            rw [hfil]
            rfl
          · unfold eligibleMatches at hfil
            rw [hfil, List.getLast?_cons_cons]
            have hne : (x :: xs).getLast?.isSome := by
              rw [List.getLast?_isSome]; exact List.cons_ne_nil x xs
            obtain ⟨a, ha2⟩ := Option.isSome_iff_exists.mp hne
            rw [ih e.1]
            unfold eligibleMatches
            rw [hfil, ha2]
            rfl
        · have hp : (if e.1 = "Uncategorized" ∨ e.2 = [] then false
              else keywordHit e.2 d) = false := by simp [h, hk]
          rw [hp]
          have ha : assignStep d acc e = acc := by simp [assignStep, h, hk]
          rw [ha]
          simp only [Bool.false_eq_true, if_neg, ite_false]
          exact ih acc

theorem categorize_eq_map (cats : CategoryStore) (rows : List Transaction) :
    categorize_transaction cats rows =
      rows.map (fun r => { r with category := assignedCategory cats r.details }) := by
  unfold categorize_transaction assignedCategory
  rw [foldl_categorizePass, List.map_map]
  apply List.map_congr_left
  intro r _
  rfl

theorem categorize_length (cats : CategoryStore) (rows : List Transaction) :
    (categorize_transaction cats rows).length = rows.length := by
  rw [categorize_eq_map]
  exact List.length_map rows _

/-! ### JSON round-trip lemmas -/

theorem optionMapM_str_roundtrip (ws : List String) :
    optionMapM (fun v => match v with | JVal.str s => some s | _ => none)
      (ws.map JVal.str) = some ws := by
  induction ws with
  | nil => rfl
  | cons w ws ih => simp [optionMapM, ih]

theorem jsonToKeywords_roundtrip (ws : List String) :
    jsonToKeywords (JVal.arr (ws.map JVal.str)) = some ws :=
  optionMapM_str_roundtrip ws

theorem jsonToStore_roundtrip (s : CategoryStore) :
    jsonToStore (storeToJson s) = some s := by
  show optionMapM _ (s.map _) = some s
  induction s with
  | nil => rfl
  | cons e es ih =>
      rw [List.map_cons]
      simp [optionMapM, jsonToKeywords_roundtrip, ih]

/-! ### Option-mapM helper lemmas -/

theorem optionMapM_eq_none_of_mem {α β : Type} (f : α → Option β) :
    ∀ (l : List α) (a : α), a ∈ l → f a = none → optionMapM f l = none := by
  intro l
  induction l with
  | nil => intro a ha; cases ha
  | cons x xs ih =>
      intro a ha hf
      unfold optionMapM
      rcases List.mem_cons.mp ha with h | h
      · subst h; rw [hf]
      · cases hx : f x
        · rfl
        · rw [ih a h hf]

theorem optionMapM_some_length {α β : Type} (f : α → Option β) :
    ∀ (l : List α) (res : List β), optionMapM f l = some res → res.length = l.length := by
  intro l
  induction l with
  | nil =>
      intro res h
      have h2 := Option.some.inj h
      subst h2
      rfl
  | cons x xs ih =>
      intro res h
      unfold optionMapM at h
      cases hx : f x <;> rw [hx] at h
      · cases h
      · cases hxs : optionMapM f xs <;> rw [hxs] at h
        · cases h
        · have h2 := Option.some.inj h
          subst h2
          simp [ih _ hxs]

/-! ### Store lookup lemmas -/

theorem lookup_setCat_self :
    ∀ (s : CategoryStore) (c : String) (v kws : List String),
      lookupCat s c = some kws → lookupCat (setCat s c v) c = some v := by
  intro s
  induction s with
  | nil => intro c v kws h; cases h
  | cons e es ih =>
      intro c v kws h
      unfold setCat
      by_cases hc : e.1 = c
      · rw [if_pos hc]
        simp [lookupCat]
      · rw [if_neg hc]
        unfold lookupCat at h ⊢
        rw [if_neg hc] at h ⊢
        exact ih c v kws h

theorem lookup_setCat_isSome :
    ∀ (s : CategoryStore) (c : String) (v : List String) (n : String),
      (lookupCat (setCat s c v) n).isSome = (lookupCat s n).isSome := by
  intro s
  induction s with
  | nil => intro c v n; rfl
  | cons e es ih =>
      intro c v n
      unfold setCat
      by_cases hc : e.1 = c
      · rw [if_pos hc]
        unfold lookupCat
        by_cases hn : c = n
        · rw [if_pos hn, if_pos (hc.trans hn)]
          rfl
        · rw [if_neg hn, if_neg (fun h => hn (hc.symm.trans h))]
      · rw [if_neg hc]
        unfold lookupCat
        by_cases hn : e.1 = n
        · rw [if_pos hn, if_pos hn]
        · rw [if_neg hn, if_neg hn]
          exact ih c v n

theorem lookup_append_left :
    ∀ (s t : CategoryStore) (n : String),
      (lookupCat s n).isSome → lookupCat (s ++ t) n = lookupCat s n := by
  intro s
  induction s with
  | nil => intro t n h; cases h
  | cons e es ih =>
      intro t n h
      rw [List.cons_append]
      unfold lookupCat at h ⊢
      by_cases hn : e.1 = n
      · rw [if_pos hn, if_pos hn]
      · rw [if_neg hn] at h ⊢
        rw [if_neg hn]
        exact ih t n h

/-! ### Date parsing lemmas -/

theorem daysInMonth_le (m y : Nat) : daysInMonth m y ≤ 31 := by
  unfold daysInMonth
  split_ifs <;> norm_num

theorem digitChar_isDigit (k : Nat) (h : k < 10) :
    (Char.ofNat (48 + k)).isDigit = true := by
  interval_cases k <;> decide

theorem digitChar_toNat (k : Nat) (h : k < 10) :
    (Char.ofNat (48 + k)).toNat = 48 + k := by
  interval_cases k <;> decide

theorem digitChar_not_ws (k : Nat) (h : k < 10) :
    (Char.ofNat (48 + k)).isWhitespace = false := by
  interval_cases k <;> decide

theorem readDay_two0 (d : Nat) (h1 : 1 ≤ d) (h2 : d ≤ 31) (rest : List Char) :
    readDay ((two0 d).data ++ rest) = some (d, rest) := by
  have hd1 : d / 10 % 10 < 10 := Nat.mod_lt _ (by norm_num)
  have hd2 : d % 10 < 10 := Nat.mod_lt _ (by norm_num)
  show readDay (Char.ofNat (48 + d / 10 % 10) :: Char.ofNat (48 + d % 10) :: rest) = _
  simp only [readDay]
  rw [if_pos ⟨digitChar_isDigit _ hd1, digitChar_isDigit _ hd2⟩]
  have hv : digitsVal [Char.ofNat (48 + d / 10 % 10), Char.ofNat (48 + d % 10)] = d := by
    simp only [digitsVal, List.foldl]
    rw [digitChar_toNat _ hd1, digitChar_toNat _ hd2]
    omega
  rw [hv, if_pos ⟨h1, h2⟩]

theorem readYear_pad4 (y : Nat) (h : y ≤ 9999) :
    readYear (pad4 y).data = some (y, []) := by
  have a1 : y / 1000 % 10 < 10 := Nat.mod_lt _ (by norm_num)
  have a2 : y / 100 % 10 < 10 := Nat.mod_lt _ (by norm_num)
  have a3 : y / 10 % 10 < 10 := Nat.mod_lt _ (by norm_num)
  have a4 : y % 10 < 10 := Nat.mod_lt _ (by norm_num)
  show readYear [Char.ofNat (48 + y / 1000 % 10), Char.ofNat (48 + y / 100 % 10),
    Char.ofNat (48 + y / 10 % 10), Char.ofNat (48 + y % 10)] = _
  simp only [readYear]
  rw [if_pos ⟨digitChar_isDigit _ a1, digitChar_isDigit _ a2,
    digitChar_isDigit _ a3, digitChar_isDigit _ a4⟩]
  have hv : digitsVal [Char.ofNat (48 + y / 1000 % 10), Char.ofNat (48 + y / 100 % 10),
      Char.ofNat (48 + y / 10 % 10), Char.ofNat (48 + y % 10)] = y := by
    simp only [digitsVal, List.foldl]
    rw [digitChar_toNat _ a1, digitChar_toNat _ a2, digitChar_toNat _ a3,
      digitChar_toNat _ a4]
    omega
  rw [hv]

theorem readMonth_abbrev (k : Nat) (hk : k < 12) (rest : List Char) :
    readMonth ((monthAbbrevs.getD k "").data ++ rest) = some (k + 1, rest) := by
  interval_cases k <;> rfl

theorem dropWhile_month (k : Nat) (hk : k < 12) (rest : List Char) :
    ((monthAbbrevs.getD k "").data ++ rest).dropWhile Char.isWhitespace =
      (monthAbbrevs.getD k "").data ++ rest := by
  interval_cases k <;> rfl

theorem dropWhile_pad4 (y : Nat) :
    (pad4 y).data.dropWhile Char.isWhitespace = (pad4 y).data := by
  show (Char.ofNat (48 + y / 1000 % 10) :: _).dropWhile _ = _
  rw [List.dropWhile_cons]
  rw [digitChar_not_ws _ (Nat.mod_lt _ (by norm_num))]
  simp only [Bool.false_eq_true, if_false, ite_false]
  rfl

theorem parseDate_formatDate (d mIdx y : Nat) (hm : mIdx < 12) (hd1 : 1 ≤ d)
    (hd2 : d ≤ daysInMonth (mIdx + 1) y) (hy1 : 1 ≤ y) (hy2 : y ≤ 9999) :
    parseDate (formatDate d mIdx y) = some ⟨d, mIdx + 1, y⟩ := by
  have hd31 : d ≤ 31 := le_trans hd2 (daysInMonth_le _ _)
  have hdata : (formatDate d mIdx y).data =
      (two0 d).data ++
        (' ' :: ((monthAbbrevs.getD mIdx "").data ++ (' ' :: (pad4 y).data))) := by
    simp [formatDate, String.data_append]
  have hsp : (' ' : Char).isWhitespace = true := by decide
  unfold parseDate
  rw [hdata, readDay_two0 d hd1 hd31]
  simp only [skipWS1, hsp, if_true, dropWhile_month mIdx hm,
    readMonth_abbrev mIdx hm, dropWhile_pad4, readYear_pad4 y hy2]
  simp [hy1, hd2]

theorem optionMapM_some_getElem {α β : Type} (f : α → Option β) :
    ∀ (l : List α) (res : List β), optionMapM f l = some res →
      ∀ i : Nat, res[i]? = (l[i]?).bind f := by
  intro l
  induction l with
  | nil =>
      intro res h i
      have h2 := Option.some.inj h
      subst h2
      simp
  | cons x xs ih =>
      intro res h i
      unfold optionMapM at h
      cases hx : f x <;> rw [hx] at h
      · cases h
      · cases hxs : optionMapM f xs <;> rw [hxs] at h
        · cases h
        · have h2 := Option.some.inj h
          subst h2
          cases i with
          | zero => simp [hx]
          | succ n => simp [ih _ hxs n]

/-! ### The claims -/

/-- Claim C1: for every category store and every row, when a keyword
(lower-cased) equal to the normalized details of the row appears under
two different categories, the classifier assigns the row the category
that comes later in store order: after classification the category of
each row is the name of the last store entry (in store order, excluding
Uncategorized and entries with an empty keyword list) having a matching
keyword, and Uncategorized when no such entry exists. -/
theorem classifier_last_match_wins (cats : CategoryStore)
    (rows : List Transaction) (i : Nat) :
    ((categorize_transaction cats rows)[i]?).map Transaction.category =
      (rows[i]?).map (fun r =>
        (((eligibleMatches cats r.details).getLast?).map Prod.fst).getD
          "Uncategorized") := by
  rw [categorize_eq_map, List.getElem?_map]
  cases h : rows[i]?
  · rfl
  · simp only [Option.map_some', Option.some.injEq]
    show assignedCategory _ _ = _
    unfold assignedCategory
    exact assignedCategory_foldl _ _ _

/-- Claim C2 counterexample: with the persisted file present but
unparsable, the load step raises (the `json.load` call is unguarded)
rather than yielding the stored mapping or the default. -/
theorem load_corrupt_raises :
    load_categories FileState.corrupt = Except.error () := rfl

/-- Claim C2 (amended): the load step is fail-soft only for the absent
file: an absent file yields the default mapping, a present well-formed
file yields exactly its content, and a present unparsable file raises an
exception instead of falling back to the default. -/
theorem load_fails_soft_only_absent :
    load_categories FileState.absent = Except.ok (storeToJson initialCategories) ∧
    (∀ v : JVal, load_categories (FileState.content v) = Except.ok v) ∧
    load_categories FileState.corrupt = Except.error () :=
  ⟨rfl, fun _ => rfl, rfl⟩

/-- Claim C3 counterexample: loading a persisted file whose mapping lacks
"Uncategorized" replaces the session store wholesale, so afterwards the
store no longer contains the category. -/
theorem uncategorized_lost_on_load :
    load_categories (FileState.content (storeToJson [("Food", [])])) =
      Except.ok (storeToJson [("Food", [])]) ∧
    jsonToStore (storeToJson [("Food", [])]) = some [("Food", [])] ∧
    lookupCat [("Food", [])] "Uncategorized" = none :=
  ⟨rfl, rfl, rfl⟩

/-- Claim C3 (amended): "Uncategorized" is present in the initial store
and neither mutation removes it (both `add_category` and
`add_keyword_to_category` preserve every existing key); loading, however,
does not preserve it, because the file content replaces the store
wholesale (see the counterexample). -/
theorem uncategorized_store_invariant :
    lookupCat initialCategories "Uncategorized" = some [] ∧
    (∀ (st : AppState) (n : String),
      (lookupCat st.categories "Uncategorized").isSome →
      (lookupCat (add_category st n).categories "Uncategorized").isSome) ∧
    (∀ (st : AppState) (c k : String) (st2 : AppState) (b : Bool),
      add_keyword_to_category st c k = some (st2, b) →
      (lookupCat st.categories "Uncategorized").isSome →
      (lookupCat st2.categories "Uncategorized").isSome) := by
  refine ⟨rfl, ?_, ?_⟩
  · intro st n h
    unfold add_category
    by_cases hc : n ≠ "" ∧ lookupCat st.categories n = none
    · rw [if_pos hc]
      show (lookupCat (st.categories ++ [(n, [])]) "Uncategorized").isSome
      rw [lookup_append_left _ _ _ h]
      exact h
    · rw [if_neg hc]
      exact h
  · intro st c k st2 b hadd h
    unfold add_keyword_to_category at hadd
    by_cases h0 : trimStr k = ""
    · rw [if_pos h0] at hadd
      have h1 := Option.some.inj hadd
      have h2 : st = st2 := congrArg Prod.fst h1
      subst h2
      exact h
    · rw [if_neg h0] at hadd
      cases hl : lookupCat st.categories c with
      | none => simp only [hl] at hadd; cases hadd
      | some kws =>
        simp only [hl] at hadd
        by_cases hm : trimStr k ∈ kws
        · rw [if_pos hm] at hadd
          have h1 := Option.some.inj hadd
          have h2 : st = st2 := congrArg Prod.fst h1
          subst h2
          exact h
        · rw [if_neg hm] at hadd
          have h1 := Option.some.inj hadd
          have h2 := congrArg Prod.fst h1
          simp only at h2
          rw [← h2]
          show (lookupCat (setCat st.categories c _) "Uncategorized").isSome
          rw [lookup_setCat_isSome]
          exact h

/-- Claim C3 witness: applying the amended invariant at concrete inputs. -/
theorem uncategorized_store_invariant_witness :
    (lookupCat (add_category ⟨initialCategories, FileState.absent⟩ "Food").categories
      "Uncategorized").isSome :=
  uncategorized_store_invariant.2.1 ⟨initialCategories, FileState.absent⟩ "Food"
    (by decide)

/-- Claim C6: saving the store and loading it back yields the stored
JSON value unchanged, and that value denotes exactly the original
mapping, category order and keyword order included. -/
theorem store_save_load_roundtrip (s : CategoryStore) :
    load_categories (save_categories s) = Except.ok (storeToJson s) ∧
    jsonToStore (storeToJson s) = some s :=
  ⟨rfl, jsonToStore_roundtrip s⟩

/-- Claim C4: if any Amount cell of the uploaded CSV fails to parse as a
number after comma removal, the whole upload fails and yields no result
at all; moreover a successful upload returns exactly one transaction per
input data row, so bad rows are never silently dropped. -/
theorem bad_amount_fails_upload (cats : CategoryStore) (rows : List RawRow) :
    ((∃ r ∈ rows, parseDecimal (stripCommas r.amountText) = none) →
      load_transactions cats rows = none) ∧
    (∀ ts : List Transaction, load_transactions cats rows = some ts →
      ts.length = rows.length) := by
  constructor
  · rintro ⟨r, hr, hp⟩
    unfold load_transactions
    rw [optionMapM_eq_none_of_mem _ rows r hr (by simp [hp])]
    rfl
  · intro ts h
    unfold load_transactions at h
    obtain ⟨parsed, hm, hg⟩ := Option.map_eq_some'.mp h
    subst hg
    rw [categorize_length]
    exact optionMapM_some_length _ rows parsed hm

/-- Claim C4 witness: a one-row upload with an unparsable amount yields
no result. -/
theorem bad_amount_fails_upload_witness :
    load_transactions [] [⟨"05 Jan 2024", "x", "abc", "Debit"⟩] = none :=
  (bad_amount_fails_upload [] [⟨"05 Jan 2024", "x", "abc", "Debit"⟩]).1
    ⟨⟨"05 Jan 2024", "x", "abc", "Debit"⟩, by decide, by decide⟩

/-- Claim C5: for an existing category, addKeyword trims the keyword; if
the trimmed keyword is non-empty and not already (case-sensitively) in
the list of that category, it appends it, persists the store and returns
true; otherwise it returns false and leaves the store unchanged. -/
theorem add_keyword_spec (st : AppState) (c k : String) (kws : List String)
    (h : lookupCat st.categories c = some kws) :
    add_keyword_to_category st c k =
      if trimStr k ≠ "" ∧ trimStr k ∉ kws then
        some ({ categories := setCat st.categories c (kws ++ [trimStr k]),
                file := save_categories (setCat st.categories c (kws ++ [trimStr k])) },
              true)
      else some (st, false) := by
  unfold add_keyword_to_category
  by_cases h0 : trimStr k = ""
  · rw [if_pos h0, if_neg (fun hc => hc.1 h0)]
  · rw [if_neg h0]
    simp only [h]
    by_cases h1 : trimStr k ∈ kws
    · rw [if_pos h1, if_neg (fun hc => hc.2 h1)]
    · rw [if_neg h1, if_pos ⟨h0, h1⟩]

/-- Claim C5 witness: adding the keyword " uber " to the existing default
category trims it, inserts it and persists. -/
theorem add_keyword_spec_witness :
    add_keyword_to_category ⟨initialCategories, FileState.absent⟩
      "Uncategorized" " uber " =
    some (⟨[("Uncategorized", ["uber"])],
      save_categories [("Uncategorized", ["uber"])]⟩, true) := by
  rw [add_keyword_spec ⟨initialCategories, FileState.absent⟩ "Uncategorized"
    " uber " [] (by decide)]
  rw [if_pos (by constructor <;> decide)]
  rfl

/-- Claim C7 counterexample: with the keyword "k" stored under both "A"
(earlier) and "B" (later), the row with details "k" is classified as "B"
even though its normalized details equals the lower-cased keyword of "A";
so "assigned category C iff the normalized details equals some keyword of
C" fails in the right-to-left direction for C = "A". -/
theorem classifier_iff_counterexample :
    (categorize_transaction [("Uncategorized", []), ("A", ["k"]), ("B", ["k"])]
      [{ date := none, details := "k", amount := 0, direction := "Debit",
         category := "" }]).map Transaction.category = ["B"] ∧
    keywordHit ["k"] "k" = true := by decide

/-- Claim C7 (amended): matching is exact string equality on the
normalized details, not substring or fuzzy matching: a row is assigned a
category C other than Uncategorized only if some store entry named C has
a lower-cased keyword equal to the details lower-cased and trimmed; when
no eligible entry matches, the row is assigned Uncategorized (so the
left-to-right direction of the iff also fails for C = Uncategorized);
and the two spec examples hold. -/
theorem classifier_exact_match (cats : CategoryStore) (rows : List Transaction)
    (i : Nat) (r : Transaction) (hr : rows[i]? = some r) :
    (∀ c : String,
      ((categorize_transaction cats rows)[i]?).map Transaction.category = some c →
      c ≠ "Uncategorized" →
      ∃ e ∈ cats, e.1 = c ∧ keywordHit e.2 r.details = true) ∧
    ((∀ e ∈ cats, e.1 ≠ "Uncategorized" → e.2 ≠ [] →
        keywordHit e.2 r.details = false) →
      ((categorize_transaction cats rows)[i]?).map Transaction.category =
        some "Uncategorized") ∧
    (categorize_transaction
      [("Uncategorized", []), ("Groceries", ["whole foods"]), ("Transport", ["uber"])]
      [{ date := none, details := "WHOLE FOODS", amount := 1, direction := "Debit",
          category := "" },
       { date := none, details := "unknown merchant", amount := 2,
          direction := "Debit", category := "" }]).map Transaction.category =
      ["Groceries", "Uncategorized"] := by
  have hcat : ((categorize_transaction cats rows)[i]?).map Transaction.category =
      some ((((eligibleMatches cats r.details).getLast?).map Prod.fst).getD
        "Uncategorized") := by
    rw [categorize_eq_map, List.getElem?_map, hr]
    simp only [Option.map_some', Option.some.injEq]
    show assignedCategory _ _ = _
    unfold assignedCategory
    exact assignedCategory_foldl _ _ _
  refine ⟨?_, ?_, by decide⟩
  · intro c hc hne
    rw [hcat] at hc
    have hv := Option.some.inj hc
    cases hl : (eligibleMatches cats r.details).getLast? with
    | none =>
        rw [hl] at hv
        exact absurd hv.symm hne
    | some e =>
        rw [hl] at hv
        simp only [Option.map_some', Option.getD_some] at hv
        have hmem := List.mem_of_getLast?_eq_some hl
        unfold eligibleMatches at hmem
        rw [List.mem_filter] at hmem
        obtain ⟨hecats, hpred⟩ := hmem
        by_cases hskip : e.1 = "Uncategorized" ∨ e.2 = []
        · rw [if_pos hskip] at hpred
          cases hpred
        · rw [if_neg hskip] at hpred
          exact ⟨e, hecats, hv, hpred⟩
  · intro hmiss
    rw [hcat]
    have hnil : eligibleMatches cats r.details = [] := by
      unfold eligibleMatches
      rw [List.filter_eq_nil_iff]
      intro e he
      by_cases hskip : e.1 = "Uncategorized" ∨ e.2 = []
      · simp [hskip]
      · have h1 : e.1 ≠ "Uncategorized" := fun hx => hskip (Or.inl hx)
        have h2 : e.2 ≠ [] := fun hx => hskip (Or.inr hx)
        simp [hskip, hmiss e he h1 h2]
    rw [hnil]
    rfl

/-- Claim C7 witness: applying the amended theorem to the example store
and the row whose details is "WHOLE FOODS". -/
theorem classifier_exact_match_witness :
    ∃ e ∈ ([("Uncategorized", []), ("Groceries", ["whole foods"]),
        ("Transport", ["uber"])] : CategoryStore),
      e.1 = "Groceries" ∧ keywordHit e.2 "WHOLE FOODS" = true :=
  (classifier_exact_match
    [("Uncategorized", []), ("Groceries", ["whole foods"]), ("Transport", ["uber"])]
    [{ date := none, details := "WHOLE FOODS", amount := 1, direction := "Debit",
        category := "" }]
    0 { date := none, details := "WHOLE FOODS", amount := 1, direction := "Debit",
        category := "" } (by decide)).1 "Groceries" (by decide) (by decide)

/-- Claim C8: date parsing is lenient per row: whenever an upload
succeeds, the date of the i-th transaction is exactly the per-row parse
of the i-th Date cell (an unparsable cell yields the none sentinel for
that row only and never fails the upload); every cell in the fixed
DD Mon YYYY format denoting a real calendar day parses to that date; and
the unparsable example yields none. -/
theorem date_parsing_lenient :
    (∀ (cats : CategoryStore) (rows : List RawRow) (ts : List Transaction),
      load_transactions cats rows = some ts →
      ∀ i : Nat, (ts[i]?).map Transaction.date =
        (rows[i]?).map (fun r => parseDate r.dateText)) ∧
    (∀ d mIdx y : Nat, mIdx < 12 → 1 ≤ d → d ≤ daysInMonth (mIdx + 1) y →
      1 ≤ y → y ≤ 9999 →
      parseDate (formatDate d mIdx y) = some ⟨d, mIdx + 1, y⟩) ∧
    parseDate "not a date" = none := by
  refine ⟨?_, parseDate_formatDate, by decide⟩
  intro cats rows ts h i
  unfold load_transactions at h
  obtain ⟨parsed, hm, hg⟩ := Option.map_eq_some'.mp h
  subst hg
  rw [categorize_eq_map, List.getElem?_map]
  rw [optionMapM_some_getElem _ rows parsed hm i]
  cases hri : rows[i]? with
  | none => rfl
  | some r =>
      cases hp : parseDecimal (stripCommas r.amountText) with
      | none =>
          exfalso
          have hmem : r ∈ rows := List.getElem?_mem hri
          have hnone := optionMapM_eq_none_of_mem
            (fun r => (parseDecimal (stripCommas r.amountText)).map (fun a =>
              ({ date := parseDate r.dateText
                 details := r.detailsText
                 amount := a
                 direction := r.directionText
                 category := "" } : Transaction))) rows r hmem (by simp [hp])
          rw [hnone] at hm
          cases hm
      | some a => simp [hp]

/-- Claim C8 witness: the date cell 05 Jan 2024 (day 5, month index 0,
year 2024) parses to the corresponding date value. -/
theorem date_parsing_lenient_witness :
    parseDate (formatDate 5 0 2024) = some ⟨5, 1, 2024⟩ :=
  date_parsing_lenient.2.1 5 0 2024 (by decide) (by decide) (by decide)
    (by decide) (by decide)

/-- Claim C9 counterexample: for the existing category "Uncategorized" of
the initial store and the keyword " " (which trims to the empty string),
both calls return false and insert nothing, so the list afterwards
contains zero occurrences of the trimmed keyword, not exactly one. -/
theorem add_keyword_idempotent_counterexample :
    add_keyword_to_category ⟨initialCategories, FileState.absent⟩
      "Uncategorized" " " =
      some (⟨initialCategories, FileState.absent⟩, false) ∧
    lookupCat initialCategories "Uncategorized" = some [] ∧
    ([] : List String).count (trimStr " ") = 0 :=
  ⟨rfl, rfl, rfl⟩

/-- Claim C9 (amended): for an existing category c and a keyword whose
trim is non-empty, provided the current list holds at most one occurrence
of the trimmed keyword, two successive calls leave the list with exactly
one occurrence of it, the second call changes nothing and returns
false. -/
theorem add_keyword_idempotent (st : AppState) (c k : String) (kws : List String)
    (h : lookupCat st.categories c = some kws) (hk : trimStr k ≠ "")
    (hcount : kws.count (trimStr k) ≤ 1) :
    ∃ (st1 : AppState) (b1 : Bool),
      add_keyword_to_category st c k = some (st1, b1) ∧
      add_keyword_to_category st1 c k = some (st1, false) ∧
      ∃ kws1, lookupCat st1.categories c = some kws1 ∧
        kws1.count (trimStr k) = 1 := by
  by_cases hmem : trimStr k ∈ kws
  · have hcall : add_keyword_to_category st c k = some (st, false) := by
      unfold add_keyword_to_category
      rw [if_neg hk]
      simp only [h]
      rw [if_pos hmem]
    refine ⟨st, false, hcall, hcall, kws, h, ?_⟩
    have h1 : 0 < kws.count (trimStr k) := List.count_pos_iff.mpr hmem
    omega
  · have hcall1 : add_keyword_to_category st c k =
        some ({ categories := setCat st.categories c (kws ++ [trimStr k]),
                file := save_categories (setCat st.categories c (kws ++ [trimStr k])) },
              true) := by
      unfold add_keyword_to_category
      rw [if_neg hk]
      simp only [h]
      rw [if_neg hmem]
    have hlook2 : lookupCat (setCat st.categories c (kws ++ [trimStr k])) c =
        some (kws ++ [trimStr k]) := lookup_setCat_self _ _ _ _ h
    have hmem2 : trimStr k ∈ kws ++ [trimStr k] :=
      List.mem_append_right _ (List.mem_singleton.mpr rfl)
    have hcall2 : add_keyword_to_category
        { categories := setCat st.categories c (kws ++ [trimStr k]),
          file := save_categories (setCat st.categories c (kws ++ [trimStr k])) }
        c k =
        some ({ categories := setCat st.categories c (kws ++ [trimStr k]),
                file := save_categories (setCat st.categories c (kws ++ [trimStr k])) },
              false) := by
      unfold add_keyword_to_category
      rw [if_neg hk]
      simp only [hlook2]
      rw [if_pos hmem2]
    refine ⟨_, true, hcall1, hcall2, kws ++ [trimStr k], hlook2, ?_⟩
    rw [List.count_append, List.count_eq_zero.mpr hmem]
    simp

/-- Claim C9 witness: applying the amended theorem to the initial store
and the keyword "uber". -/
theorem add_keyword_idempotent_witness :
    ∃ (st1 : AppState) (b1 : Bool),
      add_keyword_to_category ⟨initialCategories, FileState.absent⟩
        "Uncategorized" "uber" = some (st1, b1) ∧
      add_keyword_to_category st1 "Uncategorized" "uber" = some (st1, false) ∧
      ∃ kws1, lookupCat st1.categories "Uncategorized" = some kws1 ∧
        kws1.count (trimStr "uber") = 1 :=
  add_keyword_idempotent ⟨initialCategories, FileState.absent⟩ "Uncategorized"
    "uber" [] (by decide) (by decide) (by decide)

/-- Claim C10: classification changes only the Category column: the
output has exactly as many rows as the input, in the same order, and the
date, details, amount and direction of every row are unchanged (in this
functional embedding the classifier only reads the store, which is
therefore trivially unchanged). -/
theorem categorize_frame (cats : CategoryStore) (rows : List Transaction) :
    (categorize_transaction cats rows).length = rows.length ∧
    ∀ i : Nat,
      ((categorize_transaction cats rows)[i]?).map Transaction.date =
        (rows[i]?).map Transaction.date ∧
      ((categorize_transaction cats rows)[i]?).map Transaction.details =
        (rows[i]?).map Transaction.details ∧
      ((categorize_transaction cats rows)[i]?).map Transaction.amount =
        (rows[i]?).map Transaction.amount ∧
      ((categorize_transaction cats rows)[i]?).map Transaction.direction =
        (rows[i]?).map Transaction.direction := by
  refine ⟨categorize_length cats rows, fun i => ?_⟩
  rw [categorize_eq_map cats rows]
  cases hri : rows[i]? <;> simp [List.getElem?_map, hri]
